import Mathlib

/-!
Verification of the numeric cores of the analytics repository: the LP
model builder of src/Linear_Programming.py and the 2x2 linear-system
solver and line renderer of src/pages/System_of_Equations.py.  Real
inputs are modelled as rationals: no constant of the source exceeds the
range where float arithmetic on the test inputs is exact, and the
properties below are stated over exact arithmetic as the spec does.
-/

namespace Analytics

/-- Tolerance used by System_of_Equations.py (line 97): `eps = 1e-9`. -/
def eps : ℚ := 1 / 1000000000

/-- Result of the 2x2 solver block (System_of_Equations.py lines 96-114):
the classification flag and, when unique, the Cramer solution. -/
structure SolveResult where
  has_unique : Bool
  x_sol : Option ℚ
  y_sol : Option ℚ
deriving DecidableEq, Repr

/-- Embedding of the solver block of System_of_Equations.py lines 97-105:
`det = a1*b2 - a2*b1`, `has_unique = abs(det) > eps`, and on the unique
branch `x_sol = (c1*b2 - c2*b1)/det`, `y_sol = (a1*c2 - a2*c1)/det`. -/
def solve (a1 b1 c1 a2 b2 c2 : ℚ) : SolveResult :=
  let det := a1 * b2 - a2 * b1
  if |det| > eps then
    { has_unique := true
      x_sol := some ((c1 * b2 - c2 * b1) / det)
      y_sol := some ((a1 * c2 - a2 * c1) / det) }
  else
    { has_unique := false, x_sol := none, y_sol := none }

/-- Evenly spaced samples in the manner of `np.linspace(x0, x1, n)`:
n points from x0 to x1 inclusive, step `(x1 - x0) / (n - 1)`. -/
def linspace (x0 x1 : ℚ) (n : ℕ) : List ℚ :=
  (List.range n).map (fun i : ℕ => x0 + (x1 - x0) * (i : ℚ) / ((n - 1 : ℕ) : ℚ))

/-- Line geometry returned by `line_points` (System_of_Equations.py lines
126-139): the sampled x and y arrays, the vertical flag, and the
x-intercept of a vertical line. -/
structure LineGeom where
  xs : List ℚ
  ys : List ℚ
  is_vertical : Bool
  vertical_x : Option ℚ
deriving DecidableEq, Repr

/-- Embedding of `line_points(a, b, c)` of System_of_Equations.py lines
126-139.  The source closes over the array `x_vals = np.linspace(x_min,
x_max, 400)`; here that sampled x-domain is the explicit first argument. -/
def line_points (x_vals : List ℚ) (a b c : ℚ) : LineGeom :=
  if |b| > eps then
    { xs := x_vals
      ys := x_vals.map (fun x => (c - a * x) / b)
      is_vertical := false
      vertical_x := none }
  else if |a| > eps then
    let x_vert := c / a
    let y_vals := linspace (-10) 10 400
    { xs := y_vals.map (fun _ => x_vert)
      ys := y_vals
      is_vertical := true
      vertical_x := some x_vert }
  else
    { xs := [], ys := [], is_vertical := false, vertical_x := none }

/-- Division exactly as the source performs it, but guarded: `some` only
when the divisor clears the tolerance, `none` on a near-zero divisor. -/
def safeDiv (num den : ℚ) : Option ℚ :=
  if |den| > eps then some (num / den) else none

/-- Guarded division applied to every numerator of a list: `some` of all
the quotients, or `none` as soon as one division has a near-zero divisor. -/
def safeDivAll (num : ℚ → ℚ) (den : ℚ) : List ℚ → Option (List ℚ)
  | [] => some []
  | x :: xs =>
    match safeDiv (num x) den, safeDivAll num den xs with
    | some y, some ys => some (y :: ys)
    | _, _ => none

/-- Variant of `line_points` in which every division the source performs
(`(c - a*x)/b` on the non-vertical branch, `c/a` on the vertical branch)
goes through `safeDiv`; it returns `none` exactly when some division with
a near-zero divisor would be reached. -/
def line_pointsChecked (x_vals : List ℚ) (a b c : ℚ) : Option LineGeom :=
  if |b| > eps then
    match safeDivAll (fun x => c - a * x) b x_vals with
    | some y_vals =>
        some { xs := x_vals, ys := y_vals, is_vertical := false, vertical_x := none }
    | none => none
  else if |a| > eps then
    match safeDiv c a with
    | some x_vert =>
        let y_vals := linspace (-10) 10 400
        some { xs := y_vals.map (fun _ => x_vert)
               ys := y_vals
               is_vertical := true
               vertical_x := some x_vert }
    | none => none
  else
    some { xs := [], ys := [], is_vertical := false, vertical_x := none }

/-- Objective sense of the LP model (Linear_Programming.py line 9). -/
inductive Sense where
  | maximize
  | minimize
deriving DecidableEq, Repr

/-- Bounds of one decision variable as `pl.LpVariable(name, lowBound=lb)`
creates it (Linear_Programming.py lines 13-16): an optional lower bound
and an optional upper bound, the upper bound never being passed. -/
structure LpVar where
  lowBound : Option ℚ
  upBound : Option ℚ
deriving DecidableEq, Repr

/-- Relational operator of a constraint (Linear_Programming.py lines 29-34). -/
inductive Rel where
  | le
  | ge
  | eq
deriving DecidableEq, Repr

/-- How the source maps a relation token to an operator (lines 29-34):
"<=" and ">=" are recognised, every other token falls to the `else`
branch and is attached as equality. -/
def relOfToken (tok : String) : Rel :=
  if tok = "<=" then Rel.le
  else if tok = ">=" then Rel.ge
  else Rel.eq

/-- One built constraint: the zipped coefficient/name terms, the operator,
the right-hand side and the sequential name `constr_{idx}`. -/
structure Constr where
  terms : List (ℚ × String)
  rel : Rel
  rhs : ℚ
  cname : String
deriving DecidableEq, Repr

/-- The model `build_model` assembles: sense, objective terms, constraints. -/
structure Model where
  sense : Sense
  objective : List (ℚ × String)
  constrs : List Constr
deriving DecidableEq, Repr

/-- Embedding of `build_model` of Linear_Programming.py lines 6-38: one
variable per name with lower bound 0 iff `nonneg` (upper bound never set),
objective terms `zip(obj_coeffs, var_names)`, and for each constraint row
terms `zip(row_coeffs, var_names)` with the token-mapped operator and the
1-based name.  The function is total: no length or token validation is
performed anywhere. -/
def build_model (var_names : List String) (obj_coeffs : List ℚ)
    (constraints : List (List ℚ × String × ℚ)) (sense : String) (nonneg : Bool) :
    Model × List (String × LpVar) :=
  let sense_flag := if sense = "Maximize" then Sense.maximize else Sense.minimize
  let varsBuilt := var_names.map
    (fun name => (name, LpVar.mk (if nonneg then some 0 else none) none))
  let objective := obj_coeffs.zip var_names
  let constrs := constraints.enum.map (fun p =>
    { terms := p.2.1.zip var_names
      rel := relOfToken p.2.2.1
      rhs := p.2.2.2
      cname := "constr_" ++ toString (p.1 + 1) : Constr })
  (Model.mk sense_flag objective constrs, varsBuilt)

/-- Value of a linear expression `sum(coeff * var)` under an assignment of
rationals to variable names. -/
def lpTermsValue (terms : List (ℚ × String)) (v : String → ℚ) : ℚ :=
  (terms.map (fun p => p.1 * v p.2)).sum

/-- Modelled from the spec: feasibility of an assignment for a built model.
The solving itself is delegated to the external PuLP/CBC solver and is not
code of this repository; per the spec's glossary, the feasible region is
the set of assignments satisfying all constraints and all variable bounds. -/
def Feasible (vars : List (String × LpVar)) (m : Model) (v : String → ℚ) : Prop :=
  (∀ p ∈ vars,
    (∀ lb, p.2.lowBound = some lb → lb ≤ v p.1) ∧
    (∀ ub, p.2.upBound = some ub → v p.1 ≤ ub)) ∧
  (∀ c ∈ m.constrs,
    match c.rel with
    | Rel.le => lpTermsValue c.terms v ≤ c.rhs
    | Rel.ge => c.rhs ≤ lpTermsValue c.terms v
    | Rel.eq => lpTermsValue c.terms v = c.rhs)

/-- Modelled from the spec: the external solver's Unbounded status, per the
spec's glossary "the objective can be improved without limit within the
feasible region" — for every bound there is a feasible assignment whose
objective is better (larger under Maximize, smaller under Minimize). -/
def IsUnbounded (vars : List (String × LpVar)) (m : Model) : Prop :=
  ∀ M : ℚ, ∃ v : String → ℚ, Feasible vars m v ∧
    (if m.sense = Sense.maximize
     then M < lpTermsValue m.objective v
     else lpTermsValue m.objective v < M)

/-- Result rendering of Linear_Programming.py lines 169-188: what `main`
surfaces after a solve, given the status string and the values the solver
would report. -/
structure ResultsView where
  warning : Bool
  table : Option (List (String × ℚ))
  objective : Option ℚ
deriving DecidableEq, Repr

/-- Embedding of the post-solve display logic of Linear_Programming.py
lines 169-188: on status "Optimal" the variable table and the objective
value are shown; on any other status only a warning is shown. -/
def renderResults (status : String) (sol : List (String × ℚ)) (objVal : ℚ) :
    ResultsView :=
  if status = "Optimal" then
    { warning := false, table := some sol, objective := some objVal }
  else
    { warning := true, table := none, objective := none }

/-- Length of a linspace sample: always the requested number of points. -/
theorem linspace_length (x0 x1 : ℚ) (n : ℕ) : (linspace x0 x1 n).length = n := by
  rw [linspace, List.length_map, List.length_range]

/-- Every linspace sample over an ordered span stays within the span. -/
theorem linspace_mem_bounds (x0 x1 : ℚ) (hle : x0 ≤ x1) (n : ℕ) :
    ∀ y ∈ linspace x0 x1 n, x0 ≤ y ∧ y ≤ x1 := by
  intro y hy
  simp only [linspace, List.mem_map, List.mem_range] at hy
  obtain ⟨i, hi, rfl⟩ := hy
  have hd : (0 : ℚ) ≤ x1 - x0 := by linarith
  have hiq : (0 : ℚ) ≤ (i : ℚ) := by positivity
  rcases Nat.eq_zero_or_pos (n - 1) with hn | hn
  · have h0 : ((n - 1 : ℕ) : ℚ) = 0 := by rw [hn]; norm_num
    rw [h0, div_zero]
    constructor <;> linarith
  · have hm : (0 : ℚ) < ((n - 1 : ℕ) : ℚ) := by exact_mod_cast hn
    constructor
    · have : 0 ≤ (x1 - x0) * (i : ℚ) / ((n - 1 : ℕ) : ℚ) := by positivity
      linarith
    · have hile : (i : ℚ) ≤ ((n - 1 : ℕ) : ℚ) := by
        exact_mod_cast Nat.cast_le.mpr (Nat.le_sub_one_of_lt hi)
      have hq : (x1 - x0) * (i : ℚ) / ((n - 1 : ℕ) : ℚ) ≤ x1 - x0 := by
        rw [div_le_iff₀ hm]
        calc (x1 - x0) * (i : ℚ) ≤ (x1 - x0) * ((n - 1 : ℕ) : ℚ) :=
              mul_le_mul_of_nonneg_left hile hd
          _ = (x1 - x0) * ((n - 1 : ℕ) : ℚ) := rfl
      linarith

/-- C2: the 2x2 solver reports a unique solution exactly when
|a1*b2 - a2*b1| > 1e-9; the parallel system (1,1,5, 1,1,7) and the
coincident system (1,1,5, 2,2,10) both yield has_unique = false, with
identical degenerate outputs (no finer distinction between the two). -/
theorem C2_has_unique_iff_det_above_tolerance :
    (∀ a1 b1 c1 a2 b2 c2 : ℚ,
        (solve a1 b1 c1 a2 b2 c2).has_unique = true ↔
          |a1 * b2 - a2 * b1| > 1 / 1000000000) ∧
    solve 1 1 5 1 1 7 = { has_unique := false, x_sol := none, y_sol := none } ∧
    solve 1 1 5 2 2 10 = { has_unique := false, x_sol := none, y_sol := none } ∧
    solve 1 1 5 1 1 7 = solve 1 1 5 2 2 10 := by
  refine ⟨fun a1 b1 c1 a2 b2 c2 => ?_, by norm_num [solve, eps],
    by norm_num [solve, eps], by norm_num [solve, eps]⟩
  by_cases h : |a1 * b2 - a2 * b1| > eps
  · simp only [solve, if_pos h]
    simpa [eps] using h
  · simp only [solve, if_neg h]
    simpa [eps] using h

/-- C3: whenever |a1*b2 - a2*b1| > 1e-9, the solver returns the Cramer
formulas x = (c1*b2 - c2*b1)/det and y = (a1*c2 - a2*c1)/det. -/
theorem C3_cramer_formulas (a1 b1 c1 a2 b2 c2 : ℚ)
    (h : |a1 * b2 - a2 * b1| > 1 / 1000000000) :
    (solve a1 b1 c1 a2 b2 c2).x_sol =
      some ((c1 * b2 - c2 * b1) / (a1 * b2 - a2 * b1)) ∧
    (solve a1 b1 c1 a2 b2 c2).y_sol =
      some ((a1 * c2 - a2 * c1) / (a1 * b2 - a2 * b1)) := by
  have h' : |a1 * b2 - a2 * b1| > eps := h
  simp [solve, h']

/-- Witness for C3 at solve(1,1,10, 2,-1,0): the unique solution is
x = 10/3, y = 20/3 as the spec's example states. -/
theorem C3_cramer_formulas_witness :
    (solve 1 1 10 2 (-1) 0).x_sol = some (10 / 3) ∧
    (solve 1 1 10 2 (-1) 0).y_sol = some (20 / 3) := by
  have h := C3_cramer_formulas 1 1 10 2 (-1) 0 (by norm_num)
  norm_num at h
  exact h

/-- C9: whenever the solver reports a unique solution, the returned pair
(x, y) satisfies both equations exactly (over exact arithmetic). -/
theorem C9_solution_satisfies_both (a1 b1 c1 a2 b2 c2 x y : ℚ)
    (_hu : (solve a1 b1 c1 a2 b2 c2).has_unique = true)
    (hx : (solve a1 b1 c1 a2 b2 c2).x_sol = some x)
    (hy : (solve a1 b1 c1 a2 b2 c2).y_sol = some y) :
    a1 * x + b1 * y = c1 ∧ a2 * x + b2 * y = c2 := by
  by_cases h : |a1 * b2 - a2 * b1| > eps
  · have hdet : a1 * b2 - a2 * b1 ≠ 0 := by
      intro h0
      rw [h0] at h
      norm_num [eps] at h
    simp only [solve, if_pos h, Option.some.injEq] at hx hy
    subst hx
    subst hy
    constructor <;> · field_simp; ring
  · simp [solve, if_neg h] at hx

/-- Witness for C9 at solve(1,1,10, 2,-1,0): the returned pair (10/3, 20/3)
satisfies x + y = 10 and 2x - y = 0. -/
theorem C9_solution_satisfies_both_witness :
    (1 : ℚ) * (10 / 3) + 1 * (20 / 3) = 10 ∧
    (2 : ℚ) * (10 / 3) + (-1) * (20 / 3) = 0 :=
  C9_solution_satisfies_both 1 1 10 2 (-1) 0 (10 / 3) (20 / 3)
    (by norm_num [solve, eps]) (by norm_num [solve, eps]) (by norm_num [solve, eps])

/-- Reduction of line_points on its non-vertical branch. -/
theorem line_points_of_b (x_vals : List ℚ) (a b c : ℚ) (hb : |b| > eps) :
    line_points x_vals a b c =
      { xs := x_vals, ys := x_vals.map (fun x => (c - a * x) / b),
        is_vertical := false, vertical_x := none } := by
  simp [line_points, hb]

/-- Reduction of line_points on its vertical branch. -/
theorem line_points_of_a (x_vals : List ℚ) (a b c : ℚ)
    (hb : ¬ |b| > eps) (ha : |a| > eps) :
    line_points x_vals a b c =
      { xs := (linspace (-10) 10 400).map (fun _ => c / a)
        ys := linspace (-10) 10 400
        is_vertical := true, vertical_x := some (c / a) } := by
  simp [line_points, hb, ha]

/-- Reduction of line_points on its degenerate branch. -/
theorem line_points_degen (x_vals : List ℚ) (a b c : ℚ)
    (hb : ¬ |b| > eps) (ha : ¬ |a| > eps) :
    line_points x_vals a b c =
      { xs := [], ys := [], is_vertical := false, vertical_x := none } := by
  simp [line_points, hb, ha]

/-- C4: the three branches of line_points.  When |b| > 1e-9 the sampled
x-domain is returned with y = (c - a*x)/b at each sample and no vertical
flag; else when |a| > 1e-9 it returns 400 y-samples over [-10, 10] with x
held constant at c/a, the vertical flag and vertical_x = c/a; else both
point sequences are empty. -/
theorem C4_line_points_branches (a b c : ℚ) (x_vals : List ℚ) :
    (|b| > eps →
      (line_points x_vals a b c).xs = x_vals ∧
      (line_points x_vals a b c).ys = x_vals.map (fun x => (c - a * x) / b) ∧
      (line_points x_vals a b c).is_vertical = false) ∧
    (|b| ≤ eps → |a| > eps →
      (line_points x_vals a b c).ys.length = 400 ∧
      (∀ y ∈ (line_points x_vals a b c).ys, -10 ≤ y ∧ y ≤ 10) ∧
      (∀ x ∈ (line_points x_vals a b c).xs, x = c / a) ∧
      (line_points x_vals a b c).xs.length = 400 ∧
      (line_points x_vals a b c).is_vertical = true ∧
      (line_points x_vals a b c).vertical_x = some (c / a)) ∧
    (|b| ≤ eps → |a| ≤ eps →
      (line_points x_vals a b c).xs = [] ∧ (line_points x_vals a b c).ys = []) := by
  refine ⟨fun hb => ?_, fun hb ha => ?_, fun hb ha => ?_⟩
  · rw [line_points_of_b x_vals a b c hb]
    exact ⟨rfl, rfl, rfl⟩
  · rw [line_points_of_a x_vals a b c (not_lt.mpr hb) ha]
    refine ⟨linspace_length (-10) 10 400,
      linspace_mem_bounds (-10) 10 (by norm_num) 400, ?_, ?_, rfl, rfl⟩
    · intro x hx
      simp only [List.mem_map] at hx
      obtain ⟨y, -, rfl⟩ := hx
      rfl
    · show ((linspace (-10) 10 400).map (fun _ => c / a)).length = 400
      rw [List.length_map, linspace_length]
  · rw [line_points_degen x_vals a b c (not_lt.mpr hb) (not_lt.mpr ha)]
    exact ⟨rfl, rfl⟩

/-- Witness for C4 at the spec's vertical example a=1, b=0, c=3: a vertical
line at x = 3. -/
theorem C4_line_points_branches_witness :
    (line_points (linspace (-10) 10 400) 1 0 3).is_vertical = true ∧
    (line_points (linspace (-10) 10 400) 1 0 3).vertical_x = some 3 := by
  have h := (C4_line_points_branches 1 0 3 (linspace (-10) 10 400)).2.1
    (by norm_num [eps]) (by norm_num [eps])
  refine ⟨h.2.2.2.2.1, ?_⟩
  rw [h.2.2.2.2.2]
  norm_num

/-- Under a divisor clearing the tolerance, the guarded per-sample division
of the non-vertical branch never fails. -/
theorem safeDivAll_of_den (num : ℚ → ℚ) (den : ℚ) (hden : |den| > eps)
    (xs : List ℚ) :
    safeDivAll num den xs = some (xs.map (fun x => num x / den)) := by
  induction xs with
  | nil => rfl
  | cons x xs ih => simp [safeDivAll, safeDiv, hden, ih]

/-- C6: line_points is total and every division it performs is reached only
under a guard that the divisor exceeds the tolerance: the variant that
fails on any near-zero division always succeeds, with the same result. -/
theorem C6_divisions_guarded (x_vals : List ℚ) (a b c : ℚ) :
    line_pointsChecked x_vals a b c = some (line_points x_vals a b c) := by
  by_cases hb : |b| > eps
  · rw [line_points_of_b x_vals a b c hb]
    simp only [line_pointsChecked, if_pos hb,
      safeDivAll_of_den (fun x => c - a * x) b hb x_vals]
  · by_cases ha : |a| > eps
    · rw [line_points_of_a x_vals a b c hb ha]
      simp [line_pointsChecked, hb, ha, safeDiv]
    · rw [line_points_degen x_vals a b c hb ha]
      simp [line_pointsChecked, hb, ha]

/-- C10: over the script's 400-point sampled x-domain, line_points returns
x and y sequences of equal length — 400 on the non-vertical and vertical
branches, 0 on the degenerate branch. -/
theorem C10_xs_ys_lengths (a b c x0 x1 : ℚ) :
    ((line_points (linspace x0 x1 400) a b c).xs.length =
        (line_points (linspace x0 x1 400) a b c).ys.length) ∧
    ((line_points (linspace x0 x1 400) a b c).xs.length =
        if |b| ≤ eps ∧ |a| ≤ eps then 0 else 400) := by
  by_cases hb : |b| > eps
  · have hcond : ¬ (|b| ≤ eps ∧ |a| ≤ eps) := fun hc => absurd hb (not_lt.mpr hc.1)
    rw [line_points_of_b (linspace x0 x1 400) a b c hb, if_neg hcond]
    exact ⟨(List.length_map _ _).symm, linspace_length x0 x1 400⟩
  · by_cases ha : |a| > eps
    · have hcond : ¬ (|b| ≤ eps ∧ |a| ≤ eps) := fun hc => absurd ha (not_lt.mpr hc.2)
      rw [line_points_of_a (linspace x0 x1 400) a b c hb ha, if_neg hcond]
      constructor
      · show ((linspace (-10) 10 400).map (fun _ => c / a)).length =
          (linspace (-10) 10 400).length
        rw [List.length_map]
      · show ((linspace (-10) 10 400).map (fun _ => c / a)).length = 400
        rw [List.length_map, linspace_length]
    · have hcond : |b| ≤ eps ∧ |a| ≤ eps := ⟨not_lt.mp hb, not_lt.mp ha⟩
      rw [line_points_degen (linspace x0 x1 400) a b c hb ha, if_pos hcond]
      exact ⟨rfl, rfl⟩

/-- C1 (code bug): at an input whose objective list is shorter than the
variable list and whose relation token "<" is not one of "<=", ">=", "=",
build_model performs no validation at all: it returns a model (it is a
total function), the objective is silently truncated by zip to a single
term, and the invalid token is silently attached as an equality. -/
theorem C1_no_validation_truncates_and_coerces :
    (build_model ["x", "y"] [3] [([1, 1], ("<", 4))] "Maximize" true).1.objective
        = [(3, "x")] ∧
    (build_model ["x", "y"] [3] [([1, 1], ("<", 4))] "Maximize" true).1.constrs.map
        Constr.rel = [Rel.eq] := by
  constructor
  · rfl
  · rfl

/-- C7: every variable build_model creates has lower bound 0 when nonneg is
true and no lower bound when nonneg is false, and never an upper bound,
regardless of sense or constraints. -/
theorem C7_variable_bounds (var_names : List String) (obj_coeffs : List ℚ)
    (constraints : List (List ℚ × String × ℚ)) (sense : String) (nonneg : Bool) :
    ∀ p ∈ (build_model var_names obj_coeffs constraints sense nonneg).2,
      p.2.lowBound = (if nonneg then some 0 else none) ∧ p.2.upBound = none := by
  intro p hp
  simp only [build_model, List.mem_map] at hp
  obtain ⟨name, -, rfl⟩ := hp
  exact ⟨rfl, rfl⟩

/-- Witness for C7 at a concrete build with one nonnegative variable. -/
theorem C7_variable_bounds_witness :
    ("x1", LpVar.mk (some 0) none).2.lowBound = (if true then some (0 : ℚ) else none) ∧
    ("x1", LpVar.mk (some 0) none).2.upBound = none :=
  C7_variable_bounds ["x1"] [1] [] "Maximize" true ("x1", LpVar.mk (some 0) none)
    (by simp [build_model])

/-- C8: on a status other than "Optimal" the rendered output is a warning
with no variable table and no objective value; the table and the objective
are populated only when the status is "Optimal". -/
theorem C8_results_only_when_optimal (status : String) (sol : List (String × ℚ))
    (objVal : ℚ) :
    (status ≠ "Optimal" →
      (renderResults status sol objVal).warning = true ∧
      (renderResults status sol objVal).table = none ∧
      (renderResults status sol objVal).objective = none) ∧
    (((renderResults status sol objVal).table.isSome ∨
        (renderResults status sol objVal).objective.isSome) → status = "Optimal") := by
  by_cases h : status = "Optimal"
  · subst h
    simp [renderResults]
  · simp [renderResults, h]

/-- Witness for C8 at the Infeasible status: a warning and nothing else. -/
theorem C8_results_only_when_optimal_witness :
    (renderResults "Infeasible" [] 0).warning = true ∧
    (renderResults "Infeasible" [] 0).table = none ∧
    (renderResults "Infeasible" [] 0).objective = none :=
  (C8_results_only_when_optimal "Infeasible" [] 0).1 (by simp)

/-- C5 fails as stated: the all-zero objective satisfies "every objective
coefficient ≥ 0", yet over one nonnegative variable with no constraints
the objective is constantly 0, so the problem is not unbounded (the
solver reports Optimal there, not Unbounded). -/
theorem C5_zero_objective_not_unbounded :
    ¬ IsUnbounded (build_model ["x1"] [0] [] "Maximize" true).2
        (build_model ["x1"] [0] [] "Maximize" true).1 := by
  intro h
  obtain ⟨v, -, hv⟩ := h 0
  simp [build_model, lpTermsValue] at hv

/-- C5 amended: with an empty constraint list, nonneg = true, Maximize
sense, objective coefficients matching the variable list in length, all
of them ≥ 0 and at least one strictly positive, the built model is
unbounded: every bound is beaten by some feasible assignment. -/
theorem C5_unbounded_amended (var_names : List String) (obj_coeffs : List ℚ)
    (hlen : obj_coeffs.length = var_names.length)
    (hnn : ∀ q ∈ obj_coeffs, 0 ≤ q)
    (i : ℕ) (hi : i < obj_coeffs.length)
    (hpos : 0 < obj_coeffs.get ⟨i, hi⟩) :
    IsUnbounded (build_model var_names obj_coeffs [] "Maximize" true).2
      (build_model var_names obj_coeffs [] "Maximize" true).1 := by
  intro M
  have hivar : i < var_names.length := hlen ▸ hi
  set ci := obj_coeffs.get ⟨i, hi⟩ with hci
  set ni := var_names.get ⟨i, hivar⟩ with hni
  set t := max ((M + 1) / ci) 0 with ht
  have ht0 : (0 : ℚ) ≤ t := le_max_right _ _
  refine ⟨fun n => if n = ni then t else 0, ⟨?_, ?_⟩, ?_⟩
  · intro p hp
    simp only [build_model, List.mem_map] at hp
    obtain ⟨name, -, rfl⟩ := hp
    constructor
    · intro lb hlb
      simp only [if_pos] at hlb
      cases hlb
      by_cases hn : name = ni
      · simp [hn, ht0]
      · simp [hn]
    · intro ub hub
      simp at hub
  · intro cst hcst
    simp [build_model] at hcst
  · have hsense : (build_model var_names obj_coeffs [] "Maximize" true).1.sense
        = Sense.maximize := by simp [build_model]
    have hobj : (build_model var_names obj_coeffs [] "Maximize" true).1.objective
        = obj_coeffs.zip var_names := by simp [build_model]
    rw [hsense, hobj, if_pos rfl]
    have hzlen : i < (obj_coeffs.zip var_names).length := by
      rw [List.length_zip, hlen, min_self]
      exact hivar
    have hmaplen : i <
        ((obj_coeffs.zip var_names).map
          (fun p => p.1 * (if p.2 = ni then t else 0))).length := by
      rw [List.length_map]
      exact hzlen
    have hterm : ((obj_coeffs.zip var_names).map
        (fun p => p.1 * (if p.2 = ni then t else 0))).get ⟨i, hmaplen⟩ = ci * t := by
      simp only [List.get_eq_getElem, List.getElem_map, List.getElem_zip]
      have hvn : var_names[i] = ni := rfl
      simp only [hvn, if_pos rfl]
      rfl
    have hallnn : ∀ x ∈ (obj_coeffs.zip var_names).map
        (fun p => p.1 * (if p.2 = ni then t else 0)), 0 ≤ x := by
      intro x hx
      simp only [List.mem_map] at hx
      obtain ⟨⟨q, name⟩, hqn, rfl⟩ := hx
      have hq : 0 ≤ q := hnn q (List.of_mem_zip hqn).1
      by_cases hn : name = ni
      · simp only [hn, if_pos rfl]
        exact mul_nonneg hq ht0
      · simp [hn]
    have hsum : ci * t ≤ ((obj_coeffs.zip var_names).map
        (fun p => p.1 * (if p.2 = ni then t else 0))).sum := by
      rw [← hterm]
      exact List.single_le_sum hallnn _ (List.get_mem _ i hmaplen)
    have hct : M + 1 ≤ ci * t := by
      have h1 : ci * ((M + 1) / ci) = M + 1 := mul_div_cancel₀ _ (ne_of_gt hpos)
      calc M + 1 = ci * ((M + 1) / ci) := h1.symm
        _ ≤ ci * t := mul_le_mul_of_nonneg_left (le_max_left _ _) (le_of_lt hpos)
    have : M < ((obj_coeffs.zip var_names).map
        (fun p => p.1 * (if p.2 = ni then t else 0))).sum := by linarith
    simpa [lpTermsValue] using this

/-- Witness for the amended C5: maximizing x1 over x1 ≥ 0 with no
constraints is unbounded. -/
theorem C5_unbounded_amended_witness :
    IsUnbounded (build_model ["x1"] [1] [] "Maximize" true).2
      (build_model ["x1"] [1] [] "Maximize" true).1 :=
  C5_unbounded_amended ["x1"] [1] rfl (by norm_num) 0 (by norm_num) (by norm_num)

end Analytics
